import Mathlib

/-!
Shallow embedding of the series-extraction core of `streamlit_dashboard.py`:
the functions `parse_kallanish_workbook`, `load_local_price_series`,
`load_uploaded_series` and the series merge performed in `main`.

A workbook source is modelled as `Option Grid`: `none` stands for a source
whose opening (or access to the sheet named "Price Series") raises an
exception, `some g` for a successfully read, header-less grid of cells as
produced by `pandas.read_excel(..., header=None)`.

Exceptions that the Python code does *not* catch are modelled by `Option` on
the result side: `parse_kallanish_workbook` returns `none` exactly when the
Python function would let an exception (an `IndexError` from `df.iat`)
propagate to its caller.
-/

namespace SteelDashboard

/-- A spreadsheet cell as seen through `pandas.read_excel(header=None)`:
an empty cell reads back as NaN (`blank`), other cells hold a string, a
number, or a calendar date (an Excel date cell, surfaced as a Timestamp). -/
inductive Cell where
  | blank
  | str (s : String)
  | num (q : ℚ)
  | date (y m d : Nat)
deriving DecidableEq, Repr

/-- Models `pd.isna` on a single cell: true exactly for NaN. -/
def isna : Cell → Bool
  | Cell.blank => true
  | _ => false

/-- The in-memory sheet: a list of rows of cells plus the column count
`df.shape[1]`.  A row shorter than `ncols` reads back as NaN in the missing
positions, as pandas pads ragged sheets. -/
structure Grid where
  rows : List (List Cell)
  ncols : Nat

/-- Number of rows of the sheet (`df.shape[0]`). -/
def nrows (g : Grid) : Nat := g.rows.length

/-- Cell at 0-based row `r`, column `c`; out-of-grid positions read as NaN. -/
def cellAt (g : Grid) (r c : Nat) : Cell := (g.rows.getD r []).getD c Cell.blank

/-- A workbook source: `none` when opening it / reading the sheet named
"Price Series" raises, `some g` when it yields the grid `g`. -/
abbrev Workbook := Option Grid

/-- A (Date, Price) series; dates and prices are rationals (a date is an
order-preserving encoding of the calendar date, a price is the parsed
numeric value). -/
abbrev Series := List (ℚ × ℚ)

/-- The output mapping, a Python dict in insertion order. -/
abbrev SeriesMap := List (String × Series)

/-- Order-preserving encoding of a calendar date `y-m-d`. -/
def dateCode (y m d : Nat) : ℚ := ((y * 10000 + m * 100 + d : Nat) : ℚ)

/-- Models `pd.to_datetime(cell, errors="coerce")` on the cell values the
dashboard's sheets hold: a date cell converts to itself, an ISO
`YYYY-MM-DD` string parses to the same encoding, any other string coerces
to NaT (`none`), NaN coerces to NaT.  A numeric cell converts as an epoch
offset; its encoding keeps the raw number. -/
def parseDateISO (s : String) : Option ℚ :=
  match s.splitOn "-" with
  | [ys, ms, ds] =>
    match ys.toNat?, ms.toNat?, ds.toNat? with
    | some y, some m, some d =>
      if 1 ≤ m ∧ m ≤ 12 ∧ 1 ≤ d ∧ d ≤ 31 then some (dateCode y m d) else none
    | _, _, _ => none
  | _ => none

/-- Elementwise date conversion, see `parseDateISO`. -/
def toDatetime : Cell → Option ℚ
  | Cell.blank => none
  | Cell.str s => parseDateISO s
  | Cell.num q => some q
  | Cell.date y m d => some (dateCode y m d)

/-- `cs.all Char.isDigit` over a character list. -/
def isDigits (cs : List Char) : Bool := cs.all Char.isDigit

/-- Value of a digit string, most significant first. -/
def digitsToNat (cs : List Char) : Nat :=
  cs.foldl (fun n ch => 10 * n + (ch.toNat - 48)) 0

/-- Splits a character list on a separator character; `n` separators give
`n+1` (possibly empty) parts. -/
def splitOnChar (sep : Char) : List Char → List (List Char)
  | [] => [[]]
  | c :: cs =>
    if c = sep then [] :: splitOnChar sep cs
    else
      match splitOnChar sep cs with
      | [] => [[c]]
      | p :: ps => (c :: p) :: ps

/-- Unsigned part of `pandas.to_numeric` string parsing: digits with at
most one decimal point, at least one digit overall.  Any other character —
in particular a thousands separator `,` — fails the parse. -/
def parseUnsigned (cs : List Char) : Option ℚ :=
  match splitOnChar '.' cs with
  | [a] => if !a.isEmpty && isDigits a then some ((digitsToNat a : ℚ)) else none
  | [a, b] =>
    if (!a.isEmpty || !b.isEmpty) && isDigits a && isDigits b then
      some ((digitsToNat a : ℚ) + (digitsToNat b : ℚ) / ((10 : ℚ) ^ b.length))
    else none
  | _ => none

/-- Models `pd.to_numeric(s, errors="coerce")` on a string: an optional
sign followed by a plain decimal literal; anything else coerces to NaN
(`none`). -/
def parseNumList (cs : List Char) : Option ℚ :=
  match cs with
  | [] => none
  | c :: rest =>
    if c = '-' then (parseUnsigned rest).map (fun q => -q)
    else if c = '+' then parseUnsigned rest
    else parseUnsigned cs

/-- String-level numeric coercion, see `parseNumList`. -/
def parseNumStr (s : String) : Option ℚ := parseNumList s.toList

/-- Models `pd.to_numeric(cell, errors="coerce")` elementwise: numbers pass
through, strings go through `parseNumStr`, NaN and date cells coerce to
NaN. -/
def toNumeric : Cell → Option ℚ
  | Cell.blank => none
  | Cell.str s => parseNumStr s
  | Cell.num q => some q
  | Cell.date _ _ _ => none

/-- Models Python `str()` on a cell value as it occurs in the name lookup:
`str(float("nan"))` is `"nan"`, a string is itself; the renderings of
numeric and date cells are not exercised by the claims. -/
def cellStr : Cell → String
  | Cell.blank => "nan"
  | Cell.str s => s
  | Cell.num q => toString q
  | Cell.date y m d => toString y ++ "-" ++ toString m ++ "-" ++ toString d

/-- First row whose column-0 cell is the exact string "Dates", i.e.
`df[df[0] == "Dates"].index[0]`. -/
def findMarkerAux : List (List Cell) → Option Nat
  | [] => none
  | row :: rest =>
    if row.getD 0 Cell.blank = Cell.str "Dates" then some 0
    else (findMarkerAux rest).map (fun i => i + 1)

/-- Models the guarded marker lookup: with no columns, `df[0]` raises a
`KeyError` (caught by the code), and with no matching row, `.index[0]`
raises an `IndexError` (also caught); both surface as `none`. -/
def findDatesRow (g : Grid) : Option Nat :=
  if g.ncols = 0 then none else findMarkerAux g.rows

/-- Models `df.iat[r, c]` row addressing with a possibly negative `r`:
a negative index counts from the end of the sheet, and an index out of
`[-nrows, nrows)` raises an `IndexError` (`none`). -/
def iatI (g : Grid) (r : Int) (c : Nat) : Option Cell :=
  if 0 ≤ r then
    if r < (nrows g : Int) then some (cellAt g r.toNat c) else none
  else
    if 0 ≤ (nrows g : Int) + r then some (cellAt g ((nrows g : Int) + r).toNat c)
    else none

/-- The running value of the Python variable `name` during name
resolution: either a cell value or a Python string assigned by the loop. -/
inductive NameVal where
  | cell (c : Cell)
  | pystr (s : String)
deriving DecidableEq, Repr

/-- Python `str()` of the final `name` value. -/
def strOfNameVal : NameVal → String
  | NameVal.cell c => cellStr c
  | NameVal.pystr s => s

/-- Python `str.strip()`: drop whitespace from both ends. -/
def pyStrip (s : String) : String :=
  String.mk (((s.toList.dropWhile Char.isWhitespace).reverse.dropWhile
    Char.isWhitespace).reverse)

/-- The upward scan
`while tmp_row >= 0 and pd.isna(name): tmp_row -= 1; name = df.iat[tmp_row, col] if tmp_row >= 0 else ""`
entered with `tmp_row = n` and a NaN `name`: it inspects rows `n-1`,
`n-2`, …, `0` and stops at the first non-NaN cell, or ends with the
Python string `""` when the top of the sheet is passed. -/
def scanLoop (g : Grid) (c : Nat) : Nat → NameVal
  | 0 => NameVal.pystr ""
  | t + 1 =>
    if isna (cellAt g t c) then scanLoop g c t else NameVal.cell (cellAt g t c)

/-- Resolution of one group's product name (lines 253-261 of the source):
read `df.iat[product_row, col]`; if NaN and `product_row ≥ 0`, run the
upward scan; if NaN and `product_row < 0` the scan body never runs and the
NaN survives to `str(...)` as "nan".  The final value goes through
`str(...).strip()`.  `none` models an uncaught `IndexError` from `iat`. -/
def resolveNameE (g : Grid) (productRow : Int) (c : Nat) : Option String :=
  match iatI g productRow c with
  | none => none
  | some n0 =>
    let nf : NameVal :=
      if isna n0 then
        if productRow < 0 then NameVal.cell n0
        else scanLoop g c productRow.toNat
      else NameVal.cell n0
    some (pyStrip (strOfNameVal nf))

/-- One data row of a group: dropped when the date or price cell is NaN
(`dropna`), then dropped when either coercion fails (`to_datetime` /
`to_numeric` with `errors="coerce"` followed by a second `dropna`). -/
def rowParse (dc pc : Cell) : Option (ℚ × ℚ) :=
  if isna dc || isna pc then none
  else
    match toDatetime dc, toNumeric pc with
    | some d, some p => some (d, p)
    | _, _ => none

/-- `df.iloc[start_idx:, [0, avgCol]]` followed by the row-dropping rules:
the surviving rows, in original row order. -/
def extractSeries (g : Grid) (startIdx avgCol : Nat) : Series :=
  (g.rows.drop startIdx).filterMap
    (fun row => rowParse (row.getD 0 Cell.blank) (row.getD avgCol Cell.blank))

/-- Number of (Low, High, Avg) column groups visited by the loop
`col = 1; while col + 2 < ncols: ...; col += 3`. -/
def numGroups (ncols : Nat) : Nat := (ncols - 1) / 3

/-- The start columns visited by the group loop: 1, 4, 7, … while three
columns remain. -/
def groupCols (ncols : Nat) : List Nat :=
  (List.range (numGroups ncols)).map (fun k => 1 + 3 * k)

/-- Python dict assignment `d[k] = v`: replace the value of an existing
key in place, otherwise append the new key at the end. -/
def dictInsert : SeriesMap → String → Series → SeriesMap
  | [], k, v => [(k, v)]
  | p :: rest, k, v => if p.1 = k then (k, v) :: rest else p :: dictInsert rest k v

/-- One iteration of the group loop: resolve the name (which can raise),
extract the Avg-column series, and store it in the dict unless the name is
empty.  A `none` accumulator (an exception already raised) stays `none`. -/
def groupStep (g : Grid) (productRow : Int) (startIdx : Nat)
    (acc : Option SeriesMap) (c : Nat) : Option SeriesMap :=
  match acc with
  | none => none
  | some d =>
    match resolveNameE g productRow c with
    | none => none
    | some name =>
      let s := extractSeries g startIdx (c + 2)
      if name = "" then some d else some (dictInsert d name s)

/-- The whole group loop over a list of start columns. -/
def parseGroups (g : Grid) (productRow : Int) (startIdx : Nat)
    (cols : List Nat) : Option SeriesMap :=
  cols.foldl (groupStep g productRow startIdx) (some [])

/-- Body of `parse_kallanish_workbook` once `dates_row` is fixed:
`start_idx = dates_row + 1`, `product_row = dates_row - 1`, then the group
loop. -/
def parseFrom (g : Grid) (datesRow : Nat) : Option SeriesMap :=
  parseGroups g ((datesRow : Int) - 1) (datesRow + 1) (groupCols g.ncols)

/-- `parse_kallanish_workbook`: a workbook whose opening or sheet access
raises yields `{}`; otherwise the marker row is located in column 0, with
a fall back to row index 9 when the lookup raises, and the group loop
runs.  `none` models an exception escaping the function. -/
def parse_kallanish_workbook (wb : Workbook) : Option SeriesMap :=
  match wb with
  | none => some []
  | some g => parseFrom g ((findDatesRow g).getD 9)

/-- `drop_duplicates(subset=["Date"], keep="last")`: a row is kept exactly
when no later row carries the same date; kept rows stay in order. -/
def dropDupKeepLast : Series → Series
  | [] => []
  | r :: rs =>
    if rs.any (fun s => decide (s.1 = r.1)) then dropDupKeepLast rs
    else r :: dropDupKeepLast rs

/-- Ordered insertion used to model `sort_values("Date")` (ascending;
stable on ties, which the claims never observe). -/
def insertByDate (r : ℚ × ℚ) : Series → Series
  | [] => [r]
  | s :: ss => if r.1 ≤ s.1 then r :: s :: ss else s :: insertByDate r ss

/-- `sort_values("Date")`, ascending by date. -/
def sortByDate : Series → Series
  | [] => []
  | r :: rs => insertByDate r (sortByDate rs)

/-- `name in series` on the accumulating dict. -/
def containsKey : SeriesMap → String → Bool
  | [], _ => false
  | p :: rest, k => decide (p.1 = k) || containsKey rest k

/-- `series[name]` on the accumulating dict (the key is present whenever
the code reads it). -/
def dictGet : SeriesMap → String → Series
  | [], _ => []
  | p :: rest, k => if p.1 = k then p.2 else dictGet rest k

/-- Merge of one freshly produced series into the accumulating dict, as
written identically in `load_local_price_series` (lines 301-309),
`load_uploaded_series` (lines 354-360) and `main` (lines 466-472):
an existing name concatenates, deduplicates by date keeping the last, and
sorts; a new name is stored sorted. -/
def mergeStep (acc : SeriesMap) (nm : String) (df : Series) : SeriesMap :=
  if containsKey acc nm then
    dictInsert acc nm (sortByDate (dropDupKeepLast (dictGet acc nm ++ df)))
  else
    dictInsert acc nm (sortByDate df)

/-- Merging a whole extraction result into the accumulating dict, in
iteration (insertion) order. -/
def mergeInto (acc : SeriesMap) (fs : SeriesMap) : SeriesMap :=
  fs.foldl (fun a p => mergeStep a p.1 p.2) acc

/-- `load_local_price_series`: parse each `data/*.xlsx` workbook in turn
and merge its series into the accumulator.  An exception escaping
`parse_kallanish_workbook` is not caught here, so it aborts the whole
load (`none`). -/
def load_local_price_series (files : List Workbook) : Option SeriesMap :=
  files.foldl
    (fun acc wb => acc.bind (fun d => (parse_kallanish_workbook wb).map (mergeInto d)))
    (some [])

/-- The merge of uploaded series into local series performed in `main`
(lines 465-472): start from a copy of the local dict and fold the
uploaded series in with the same merge rule. -/
def mergeAllSeries (localS uploadedS : SeriesMap) : SeriesMap :=
  mergeInto localS uploadedS

/-- Models `os.path.splitext(name)[0]` on a plain file name: cut at the
last dot that has a non-dot character somewhere before it; otherwise keep
the whole name. -/
def splitextBase (s : String) : String :=
  let cs := s.toList
  let idxs := (List.range cs.length).filter
    (fun i => decide (cs.getD i ' ' = '.') && (cs.take i).any (fun ch => decide (ch ≠ '.')))
  match idxs.getLast? with
  | some i => String.mk (cs.take i)
  | none => s

/-- An uploaded file object: its `.name` and the workbook it opens to. -/
structure UploadedFile where
  name : String
  wb : Workbook

/-- The fallback reader of `load_uploaded_series` (lines 340-352): re-read
the sheet, find the "Dates" row, then take columns 0 and 1 below it with
the same row-dropping rules.  Any exception is caught (`none`): a missing
sheet, no marker row, and also the `IndexError` that the positional
indexer `df.iloc[idx + 1:, [0, 1]]` raises when the sheet has fewer than
2 columns. -/
def fallbackSeries (wb : Workbook) : Option Series :=
  match wb with
  | none => none
  | some g =>
    match findDatesRow g with
    | none => none
    | some idx =>
      if g.ncols < 2 then none
      else some (extractSeries g (idx + 1) 1)

/-- Per-file behaviour of `load_uploaded_series`: `parse_kallanish_workbook`
with all exceptions caught (`{}`); when that yields an empty mapping, the
fallback produces a single series named after the file's base name, or
nothing when it fails too. -/
def uploadedFileSeries (f : UploadedFile) : SeriesMap :=
  let parsed := (parse_kallanish_workbook f.wb).getD []
  if parsed.isEmpty then
    match fallbackSeries f.wb with
    | none => []
    | some data => [(splitextBase f.name, data)]
  else parsed

/-- `load_uploaded_series`: fold every uploaded file's series into the
accumulating dict with the shared merge rule. -/
def load_uploaded_series (files : List UploadedFile) : SeriesMap :=
  files.foldl (fun acc f => mergeInto acc (uploadedFileSeries f)) []

/-- Price carried by the last row with date `d`, if any: the value that
"wins" a date collision under keep-last deduplication. -/
def lastPriceAt : Series → ℚ → Option ℚ
  | [], _ => none
  | r :: rs, d =>
    match lastPriceAt rs d with
    | some p => some p
    | none => if r.1 = d then some r.2 else none

/-- Declarative reading of the upward name scan started just above row
`productRow`: the first non-NaN cell among rows `productRow - 1`, …, `0`
of column `c`, stripped; the empty string when all of them are NaN. -/
def scanSpec (g : Grid) (c : Nat) (productRow : Nat) : String :=
  match ((List.range productRow).reverse).find? (fun t => !(isna (cellAt g t c))) with
  | some t => pyStrip (cellStr (cellAt g t c))
  | none => ""

/-- Row-index validity for `df.iat`: holds exactly when `df.iat[r, c]`
does not raise an `IndexError` on this sheet. -/
def validRowIdx (g : Grid) (r : Int) : Prop :=
  (0 ≤ r ∧ r < (nrows g : Int)) ∨ (r < 0 ∧ 0 ≤ (nrows g : Int) + r)

/-- Shorthand for an all-blank 4-column row. -/
def blankRow4 : List Cell := [Cell.blank, Cell.blank, Cell.blank, Cell.blank]

/-- A sheet with no "Dates" marker anywhere in column 0, a product name at
row 8 column 1, and a parseable data row at row 10 — the shape on which
the row-9 fallback of the marker lookup extracts a series. -/
def gridNoMarker : Grid :=
  ⟨[blankRow4, blankRow4, blankRow4, blankRow4, blankRow4, blankRow4,
    blankRow4, blankRow4,
    [Cell.blank, Cell.str "Prod", Cell.blank, Cell.blank],
    blankRow4,
    [Cell.date 2024 1 1, Cell.blank, Cell.blank, Cell.num 5]], 4⟩

/-- A sheet with a marker row and a named group but no data rows at all. -/
def gridNoRows : Grid :=
  ⟨[[Cell.blank, Cell.str "Prod", Cell.blank, Cell.blank],
    [Cell.str "Dates", Cell.str "Low", Cell.str "High", Cell.str "Avg"]], 4⟩

/-- A sheet whose single data row has a valid date and the price written
with a thousands separator. -/
def gridComma : Grid :=
  ⟨[[Cell.blank, Cell.str "P", Cell.blank, Cell.blank],
    [Cell.str "Dates", Cell.str "Low", Cell.str "High", Cell.str "Avg"],
    [Cell.date 2024 1 1, Cell.blank, Cell.blank, Cell.str "1,234.5"]], 4⟩

/-- Two well-formed (Low, High, Avg) triples that carry the same product
name "X". -/
def gridDupNames : Grid :=
  ⟨[[Cell.blank, Cell.str "X", Cell.blank, Cell.blank, Cell.str "X",
     Cell.blank, Cell.blank],
    [Cell.str "Dates", Cell.str "Low", Cell.str "High", Cell.str "Avg",
     Cell.str "Low", Cell.str "High", Cell.str "Avg"],
    [Cell.date 2024 1 1, Cell.blank, Cell.blank, Cell.num 10, Cell.blank,
     Cell.blank, Cell.num 20]], 7⟩

/-- Two well-formed triples with distinct names "X" and "Y". -/
def gridTwoNames : Grid :=
  ⟨[[Cell.blank, Cell.str "X", Cell.blank, Cell.blank, Cell.str "Y",
     Cell.blank, Cell.blank],
    [Cell.str "Dates", Cell.str "Low", Cell.str "High", Cell.str "Avg",
     Cell.str "Low", Cell.str "High", Cell.str "Avg"],
    [Cell.date 2024 1 1, Cell.blank, Cell.blank, Cell.num 10, Cell.blank,
     Cell.blank, Cell.num 20]], 7⟩

/-- Name function of `gridTwoNames`: "X" for the first group, "Y"
otherwise. -/
def nmTwoNames : Nat → String := fun c => if c = 1 then "X" else "Y"

/-- Workbook carrying series "A" = [(2024-01-01, 10), (2024-01-08, 11)]. -/
def gridMergeA : Grid :=
  ⟨[[Cell.blank, Cell.str "A", Cell.blank, Cell.blank],
    [Cell.str "Dates", Cell.str "Low", Cell.str "High", Cell.str "Avg"],
    [Cell.date 2024 1 1, Cell.blank, Cell.blank, Cell.num 10],
    [Cell.date 2024 1 8, Cell.blank, Cell.blank, Cell.num 11]], 4⟩

/-- Workbook carrying series "A" = [(2024-01-08, 99), (2024-01-15, 12)]. -/
def gridMergeB : Grid :=
  ⟨[[Cell.blank, Cell.str "A", Cell.blank, Cell.blank],
    [Cell.str "Dates", Cell.str "Low", Cell.str "High", Cell.str "Avg"],
    [Cell.date 2024 1 8, Cell.blank, Cell.blank, Cell.num 99],
    [Cell.date 2024 1 15, Cell.blank, Cell.blank, Cell.num 12]], 4⟩

/-- The two row sequences of the merge example and their merge. -/
def seriesA : Series := [(dateCode 2024 1 1, 10), (dateCode 2024 1 8, 11)]

/-- Later-merged "A" rows of the merge example. -/
def seriesB : Series := [(dateCode 2024 1 8, 99), (dateCode 2024 1 15, 12)]

/-- Expected merged rows of the merge example. -/
def seriesMerged : Series :=
  [(dateCode 2024 1 1, 10), (dateCode 2024 1 8, 99), (dateCode 2024 1 15, 12)]

/-- Marker at row 2; the first group's name cell (row 1, column 1) is
blank with "Up" above it, and the second group's column 4 is blank all
the way to the top. -/
def gridScan : Grid :=
  ⟨[[Cell.blank, Cell.str "Up", Cell.blank, Cell.blank, Cell.blank,
     Cell.blank, Cell.blank],
    [Cell.blank, Cell.blank, Cell.blank, Cell.blank, Cell.blank,
     Cell.blank, Cell.blank],
    [Cell.str "Dates", Cell.str "Low", Cell.str "High", Cell.str "Avg",
     Cell.str "Low", Cell.str "High", Cell.str "Avg"],
    [Cell.date 2024 1 1, Cell.blank, Cell.blank, Cell.num 7, Cell.blank,
     Cell.blank, Cell.num 9]], 7⟩

/-- Marker row present but only 3 columns in total. -/
def gridNarrow : Grid := ⟨[[Cell.str "Dates", Cell.blank, Cell.blank]], 3⟩

/-- Marker at row 0: the name row "above" it wraps to the last row. -/
def gridMarkerTop : Grid :=
  ⟨[[Cell.str "Dates", Cell.str "Low", Cell.str "High", Cell.str "Avg"],
    [Cell.date 2024 1 1, Cell.str "Last", Cell.blank, Cell.num 3]], 4⟩

/-- An uploaded file whose sheet has a marker but no complete column
triple, so the main parse yields an empty mapping and the fallback path
reads columns 0 and 1. -/
def uploadNarrow : UploadedFile :=
  ⟨"prices.xlsx",
   some ⟨[[Cell.str "Dates", Cell.str "Price"],
          [Cell.date 2024 1 1, Cell.num 42]], 2⟩⟩

/-- An uploaded file whose sheet has a "Dates" marker but only one
column: the main parse yields an empty mapping and the fallback's
positional indexer `[0, 1]` is out of bounds (the raised `IndexError` is
caught), so the file contributes nothing. -/
def uploadOneCol : UploadedFile :=
  ⟨"solo.xlsx",
   some ⟨[[Cell.str "Dates"], [Cell.date 2024 1 1]], 1⟩⟩

/-- A found marker index is a real row index of the sheet. -/
theorem findMarkerAux_lt {rows : List (List Cell)} {r : Nat}
    (h : findMarkerAux rows = some r) : r < rows.length := by
  induction rows generalizing r with
  | nil => simp [findMarkerAux] at h
  | cons row rest ih =>
    by_cases hr : row.getD 0 Cell.blank = Cell.str "Dates"
    · rw [findMarkerAux, if_pos hr] at h
      obtain rfl := Option.some_inj.mp h
      simp only [List.length_cons]
      omega
    · rw [findMarkerAux, if_neg hr] at h
      obtain ⟨a, ha, rfl⟩ := Option.map_eq_some'.mp h
      have := ih ha
      simp only [List.length_cons]
      omega

/-- A found "Dates" row lies inside the sheet. -/
theorem findDatesRow_lt {g : Grid} {R : Nat} (h : findDatesRow g = some R) :
    R < nrows g := by
  rw [findDatesRow] at h
  by_cases h0 : g.ncols = 0
  · simp [h0] at h
  · rw [if_neg h0] at h
    exact findMarkerAux_lt h

/-- Once an exception is pending, the rest of the group loop is skipped. -/
theorem foldl_groupStep_none (g : Grid) (pR : Int) (sI : Nat) :
    ∀ cols : List Nat, cols.foldl (groupStep g pR sI) none = none := by
  intro cols
  induction cols with
  | nil => rfl
  | cons c cs ih => simpa [groupStep] using ih

/-- A valid row index makes `df.iat` return a cell. -/
theorem iatI_isSome {g : Grid} {r : Int} (h : validRowIdx g r) (c : Nat) :
    ∃ cl, iatI g r c = some cl := by
  rcases h with ⟨h0, h1⟩ | ⟨h0, h1⟩
  · refine ⟨cellAt g r.toNat c, ?_⟩
    rw [iatI, if_pos h0, if_pos h1]
  · refine ⟨cellAt g ((nrows g : Int) + r).toNat c, ?_⟩
    rw [iatI, if_neg (by omega), if_pos h1]

/-- Name resolution cannot raise on a valid product row. -/
theorem resolveNameE_isSome {g : Grid} {r : Int} (h : validRowIdx g r) (c : Nat) :
    ∃ s, resolveNameE g r c = some s := by
  obtain ⟨cl, hcl⟩ := iatI_isSome h c
  simp only [resolveNameE, hcl]
  exact ⟨_, rfl⟩

/-- The group loop runs to completion on a valid product row. -/
theorem foldl_groupStep_some {g : Grid} {pR : Int} (sI : Nat)
    (h : validRowIdx g pR) :
    ∀ (cols : List Nat) (d0 : SeriesMap),
      ∃ d, cols.foldl (groupStep g pR sI) (some d0) = some d := by
  intro cols
  induction cols with
  | nil => exact fun d0 => ⟨d0, rfl⟩
  | cons c cs ih =>
    intro d0
    obtain ⟨nm, hnm⟩ := resolveNameE_isSome h c
    have hstep : groupStep g pR sI (some d0) c =
        some (if nm = "" then d0 else dictInsert d0 nm (extractSeries g sI (c + 2))) := by
      rw [groupStep, hnm]
      by_cases he : nm = "" <;> simp [he]
    rw [List.foldl_cons, hstep]
    exact ih _

/-- C6: a workbook whose opening — including access to the sheet named
"Price Series" — raises any exception is caught at the boundary of
`parse_kallanish_workbook` and yields the empty mapping; no exception
propagates to the caller. -/
theorem C6_missing_sheet_yields_empty :
    parse_kallanish_workbook none = some [] := rfl

/-- C1 (amended): when no row of column 0 holds "Dates", the extractor
does not return an empty mapping; it falls back to treating row index 9
as the marker row and extracts series under that assumption. -/
theorem C1_no_marker_falls_back_to_row9 (g : Grid)
    (h : findDatesRow g = none) :
    parse_kallanish_workbook (some g) = parseFrom g 9 := by
  simp [parse_kallanish_workbook, h]

/-- C1 witness: the fallback equation at a concrete marker-less sheet. -/
theorem C1_witness :
    parse_kallanish_workbook (some gridNoMarker) = parseFrom gridNoMarker 9 :=
  C1_no_marker_falls_back_to_row9 gridNoMarker (by decide)

/-- C1 counterexample: a workbook with the sheet present, no "Dates"
anywhere in column 0, and a non-empty extraction result — the claim's
promised empty mapping does not happen. -/
theorem C1_counterexample :
    findDatesRow gridNoMarker = none ∧
    parse_kallanish_workbook (some gridNoMarker) =
      some [("Prod", [(dateCode 2024 1 1, 5)])] ∧
    parse_kallanish_workbook (some gridNoMarker) ≠ some [] := by
  exact ⟨by decide, by decide, by decide⟩

/-- C8: with a "Dates" marker but at most 3 columns in total, no group
fits and the result is the empty mapping; moreover every visited group
start column leaves at least 3 columns in the sheet. -/
theorem C8_narrow_sheet_empty (g : Grid) (R : Nat)
    (hR : findDatesRow g = some R) :
    (g.ncols ≤ 3 → parse_kallanish_workbook (some g) = some []) ∧
    (∀ c ∈ groupCols g.ncols, c + 3 ≤ g.ncols) := by
  constructor
  · intro h3
    have hng : numGroups g.ncols = 0 := by
      rw [numGroups]; omega
    simp [parse_kallanish_workbook, hR, parseFrom, parseGroups, groupCols, hng]
  · intro c hc
    simp only [groupCols, List.mem_map, List.mem_range] at hc
    obtain ⟨k, hk, rfl⟩ := hc
    have h3 : numGroups g.ncols * 3 ≤ g.ncols - 1 := Nat.div_mul_le_self _ _
    omega

/-- C8 witness: the empty result and the loop guard at a concrete
3-column sheet with a marker. -/
theorem C8_witness :
    parse_kallanish_workbook (some gridNarrow) = some [] ∧
    (∀ c ∈ groupCols gridNarrow.ncols, c + 3 ≤ gridNarrow.ncols) := by
  obtain ⟨h1, h2⟩ := C8_narrow_sheet_empty gridNarrow 0 (by decide)
  exact ⟨h1 (by decide), h2⟩

/-- A member of the dict after an insertion either carries the inserted
key or was already present. -/
theorem dictInsert_mem {d : SeriesMap} {k : String} {v : Series}
    {p : String × Series} (h : p ∈ dictInsert d k v) : p.1 = k ∨ p ∈ d := by
  induction d with
  | nil =>
    rw [dictInsert] at h
    simp only [List.mem_singleton] at h
    exact Or.inl (by rw [h])
  | cons q rest ih =>
    by_cases hq : q.1 = k
    · rw [dictInsert, if_pos hq] at h
      rcases List.mem_cons.mp h with rfl | h2
      · exact Or.inl rfl
      · exact Or.inr (List.mem_cons_of_mem _ h2)
    · rw [dictInsert, if_neg hq] at h
      rcases List.mem_cons.mp h with rfl | h2
      · exact Or.inr (List.mem_cons_self _ _)
      · rcases ih h2 with h3 | h3
        · exact Or.inl h3
        · exact Or.inr (List.mem_cons_of_mem _ h3)

/-- Keys stay non-empty along the group loop: only names that pass the
`if name:` truthiness check are ever inserted. -/
theorem foldl_groupStep_keys {g : Grid} {pR : Int} {sI : Nat} :
    ∀ (cols : List Nat) (acc : SeriesMap),
      (∀ p ∈ acc, p.1 ≠ "") →
      ∀ d, cols.foldl (groupStep g pR sI) (some acc) = some d →
      ∀ p ∈ d, p.1 ≠ "" := by
  intro cols
  induction cols with
  | nil =>
    intro acc hacc d hd
    obtain rfl := Option.some_inj.mp hd
    exact hacc
  | cons c cs ih =>
    intro acc hacc d hd
    rw [List.foldl_cons] at hd
    have hg : groupStep g pR sI (some acc) c = none ∨
        ∃ acc', groupStep g pR sI (some acc) c = some acc' ∧
          ∀ p ∈ acc', p.1 ≠ "" := by
      simp only [groupStep]
      cases hres : resolveNameE g pR c with
      | none => exact Or.inl rfl
      | some nm =>
        by_cases he : nm = ""
        · exact Or.inr ⟨acc, by simp [he], hacc⟩
        · refine Or.inr ⟨dictInsert acc nm (extractSeries g sI (c + 2)),
            by simp [he], ?_⟩
          intro p hp
          rcases dictInsert_mem hp with h1 | h1
          · rw [h1]; exact he
          · exact hacc p h1
    rcases hg with hg | ⟨acc', hg, hacc'⟩
    · rw [hg, foldl_groupStep_none] at hd
      exact absurd hd (by simp)
    · rw [hg] at hd
      exact ih acc' hacc' d hd

/-- C2 (amended): every entry of the mapping returned by
`parse_kallanish_workbook` has a non-empty product-name key; the series
of an entry may however be empty when none of its rows parses. -/
theorem C2_keys_nonempty (wb : Workbook) (d : SeriesMap)
    (h : parse_kallanish_workbook wb = some d) :
    ∀ p ∈ d, p.1 ≠ "" := by
  match wb with
  | none =>
    obtain rfl := Option.some_inj.mp h
    simp
  | some g =>
    simp only [parse_kallanish_workbook, parseFrom, parseGroups] at h
    exact foldl_groupStep_keys _ [] (by simp) d h

/-- C2 witness: the non-empty-key property at a concrete workbook and the
one entry of its output. -/
theorem C2_witness : ("Prod", ([] : Series)).1 ≠ "" :=
  C2_keys_nonempty (some gridNoRows) [("Prod", [])] (by decide) ("Prod", [])
    (by simp)

/-- C2 counterexample: a named group with no parseable data rows is still
present in the output, with an empty series — refuting "at least one
(Date, Price) pair" and "a group whose rows all fail to parse is never
present". -/
theorem C2_counterexample :
    parse_kallanish_workbook (some gridNoRows) = some [("Prod", [])] ∧
    ¬ (∀ d, parse_kallanish_workbook (some gridNoRows) = some d →
        ∀ p ∈ d, p.2 ≠ []) := by
  refine ⟨by decide, fun hall => ?_⟩
  exact hall [("Prod", [])] (by decide) ("Prod", []) (by simp) rfl

/-- A character list containing a character other than the separator has
a split part containing it. -/
theorem splitOnChar_exists_part {sep x : Char} :
    ∀ cs : List Char, x ∈ cs → x ≠ sep →
      ∃ p, p ∈ splitOnChar sep cs ∧ x ∈ p := by
  intro cs
  induction cs with
  | nil => intro h; simp at h
  | cons c rest ih =>
    intro hmem hne
    by_cases hc : c = sep
    · have hx : x ∈ rest := by
        rcases List.mem_cons.mp hmem with rfl | h2
        · exact absurd hc hne
        · exact h2
      obtain ⟨p, hp, hxp⟩ := ih hx hne
      simp only [splitOnChar, if_pos hc]
      exact ⟨p, List.mem_cons_of_mem _ hp, hxp⟩
    · rcases List.mem_cons.mp hmem with rfl | h2
      · cases hsp : splitOnChar sep rest with
        | nil =>
          simp only [splitOnChar, if_neg hc, hsp]
          exact ⟨[x], by simp, by simp⟩
        | cons p ps =>
          simp only [splitOnChar, if_neg hc, hsp]
          exact ⟨x :: p, by simp, by simp⟩
      · obtain ⟨p, hp, hxp⟩ := ih h2 hne
        cases hsp : splitOnChar sep rest with
        | nil => rw [hsp] at hp; simp at hp
        | cons q ps =>
          rw [hsp] at hp
          simp only [splitOnChar, if_neg hc, hsp]
          rcases List.mem_cons.mp hp with rfl | hp2
          · exact ⟨c :: p, by simp, List.mem_cons_of_mem _ hxp⟩
          · exact ⟨p, by simp [hp2], hxp⟩

/-- A part containing a comma is not all digits. -/
theorem isDigits_comma {p : List Char} (h : ',' ∈ p) : isDigits p = false := by
  rw [isDigits]
  exact List.all_eq_false.mpr ⟨',', h, by decide⟩

/-- The unsigned numeric parse fails on any string containing a comma. -/
theorem parseUnsigned_comma {cs : List Char} (h : ',' ∈ cs) :
    parseUnsigned cs = none := by
  obtain ⟨p, hp, hxp⟩ := @splitOnChar_exists_part '.' ',' cs h (by decide)
  rw [parseUnsigned]
  cases hsp : splitOnChar '.' cs with
  | nil => rfl
  | cons a as =>
    cases as with
    | nil =>
      rw [hsp] at hp
      obtain rfl : p = a := by simpa using hp
      simp [isDigits_comma hxp]
    | cons b bs =>
      cases bs with
      | nil =>
        rw [hsp] at hp
        rcases List.mem_cons.mp hp with rfl | hp2
        · simp [isDigits_comma hxp]
        · obtain rfl : p = b := by simpa using hp2
          simp [isDigits_comma hxp]
      | cons e es => rfl

/-- The signed numeric parse fails on any string containing a comma. -/
theorem parseNumList_comma {cs : List Char} (h : ',' ∈ cs) :
    parseNumList cs = none := by
  cases cs with
  | nil => simp at h
  | cons c rest =>
    rw [parseNumList]
    by_cases h1 : c = '-'
    · subst h1
      have hr : ',' ∈ rest := by
        rcases List.mem_cons.mp h with h2 | h2
        · exact absurd h2 (by decide)
        · exact h2
      simp [parseUnsigned_comma hr]
    · by_cases h2 : c = '+'
      · subst h2
        have hr : ',' ∈ rest := by
          rcases List.mem_cons.mp h with h3 | h3
          · exact absurd h3 (by decide)
          · exact h3
        simp [h1, parseUnsigned_comma hr]
      · simp [h1, h2, parseUnsigned_comma h]

/-- C3 (amended): a price cell whose text is a numeric value written with
thousands separators is coerced to NaN by the numeric parse, so the
row-extraction step drops that row — numeric parsing does not tolerate
thousands separators. -/
theorem C3_thousands_separator_drops_row (s : String) (dc : Cell)
    (h : ',' ∈ s.toList) :
    toNumeric (Cell.str s) = none ∧ rowParse dc (Cell.str s) = none := by
  have hnum : toNumeric (Cell.str s) = none := by
    rw [toNumeric, parseNumStr]
    exact parseNumList_comma h
  refine ⟨hnum, ?_⟩
  rw [rowParse]
  cases hdt : toDatetime dc <;> by_cases hdc : isna dc <;>
    simp [hdc, hnum, hdt, isna]

/-- C3 witness: the dropped-row behaviour at the concrete cell text
"1,234.5". -/
theorem C3_witness :
    toNumeric (Cell.str "1,234.5") = none ∧
    rowParse (Cell.date 2024 1 1) (Cell.str "1,234.5") = none :=
  C3_thousands_separator_drops_row "1,234.5" (Cell.date 2024 1 1) (by decide)

/-- C3 counterexample: the cell text "1,234.5" is not parsed as a number,
and the workbook whose only data row carries it yields that group with
the row dropped (an empty series), not a parsed value. -/
theorem C3_counterexample :
    toNumeric (Cell.str "1,234.5") ≠ some ((1234.5 : ℚ)) ∧
    parse_kallanish_workbook (some gridComma) = some [("P", [])] := by
  exact ⟨by decide, by decide⟩

/-- Inserting a key absent from the dict appends it at the end. -/
theorem dictInsert_fresh {d : SeriesMap} {k : String} {v : Series}
    (h : ∀ p ∈ d, p.1 ≠ k) : dictInsert d k v = d ++ [(k, v)] := by
  induction d with
  | nil => rfl
  | cons q rest ih =>
    rw [dictInsert, if_neg (h q (List.mem_cons_self _ _))]
    rw [ih (fun p hp => h p (List.mem_cons_of_mem _ hp))]
    simp

/-- The group loop over columns whose names all resolve, are non-empty
and pairwise fresh appends one entry per column, in column order. -/
theorem foldl_groupStep_append {g : Grid} {pR : Int} {sI : Nat}
    (nm : Nat → String) :
    ∀ (cols : List Nat) (d0 : SeriesMap),
      (∀ c ∈ cols, resolveNameE g pR c = some (nm c)) →
      (∀ c ∈ cols, nm c ≠ "") →
      List.Pairwise (fun a b => nm a ≠ nm b) cols →
      (∀ c ∈ cols, ∀ p ∈ d0, p.1 ≠ nm c) →
      cols.foldl (groupStep g pR sI) (some d0) =
        some (d0 ++ cols.map (fun c => (nm c, extractSeries g sI (c + 2)))) := by
  intro cols
  induction cols with
  | nil => intro d0 _ _ _ _; simp
  | cons c cs ih =>
    intro d0 hres hne hpw hfresh
    have hstep : groupStep g pR sI (some d0) c =
        some (d0 ++ [(nm c, extractSeries g sI (c + 2))]) := by
      simp only [groupStep, hres c (List.mem_cons_self _ _)]
      rw [if_neg (hne c (List.mem_cons_self _ _)),
        dictInsert_fresh (hfresh c (List.mem_cons_self _ _))]
    rw [List.foldl_cons, hstep]
    have htail := ih (d0 ++ [(nm c, extractSeries g sI (c + 2))])
      (fun x hx => hres x (List.mem_cons_of_mem _ hx))
      (fun x hx => hne x (List.mem_cons_of_mem _ hx))
      ((List.pairwise_cons.mp hpw).2)
      (fun x hx p hp => by
        rcases List.mem_append.mp hp with h1 | h1
        · exact hfresh x (List.mem_cons_of_mem _ hx) p h1
        · obtain rfl : p = (nm c, extractSeries g sI (c + 2)) := by simpa using h1
          exact (List.pairwise_cons.mp hpw).1 x hx)
    rw [htail]
    simp

/-- C4 (amended): with a "Dates" marker at row R and N well-formed
(Low, High, Avg) triples whose names all resolve non-empty and *pairwise
distinct*, the parse returns exactly N series, the series of each group
consisting of exactly the data rows from R+1 on whose date and
Avg-column price both parse; a failing row only affects its own group.
(Without distinctness the dict collapses same-named groups — see the
counterexample.) -/
theorem C4_well_formed_extraction (g : Grid) (R : Nat) (nm : Nat → String)
    (hR : findDatesRow g = some R)
    (hres : ∀ c ∈ groupCols g.ncols,
      resolveNameE g ((R : Int) - 1) c = some (nm c))
    (hne : ∀ c ∈ groupCols g.ncols, nm c ≠ "")
    (hinj : List.Pairwise (fun a b => nm a ≠ nm b) (groupCols g.ncols)) :
    parse_kallanish_workbook (some g) =
      some ((groupCols g.ncols).map
        (fun c => (nm c, extractSeries g (R + 1) (c + 2)))) ∧
    ((groupCols g.ncols).map
        (fun c => (nm c, extractSeries g (R + 1) (c + 2)))).length =
      numGroups g.ncols := by
  constructor
  · simp only [parse_kallanish_workbook, hR, Option.getD_some, parseFrom,
      parseGroups]
    have := @foldl_groupStep_append g ((R : Int) - 1) (R + 1) nm
      (groupCols g.ncols) [] hres hne hinj (by simp)
    simpa using this
  · simp [groupCols]

/-- C4 witness: the exact two-series extraction at a concrete sheet with
distinct names "X" and "Y". -/
theorem C4_witness :
    parse_kallanish_workbook (some gridTwoNames) =
      some ((groupCols gridTwoNames.ncols).map
        (fun c => (nmTwoNames c, extractSeries gridTwoNames 2 (c + 2)))) ∧
    ((groupCols gridTwoNames.ncols).map
        (fun c => (nmTwoNames c, extractSeries gridTwoNames 2 (c + 2)))).length =
      numGroups gridTwoNames.ncols :=
  C4_well_formed_extraction gridTwoNames 1 nmTwoNames (by decide) (by decide)
    (by decide) (by decide)

/-- C4 counterexample: two well-formed triples with valid (non-empty)
names, both "X" — the parse returns one series, not two, and it holds
only the second group's rows: a row of the first group is affected by a
later group after all. -/
theorem C4_counterexample :
    (groupCols gridDupNames.ncols).length = 2 ∧
    (∀ c ∈ groupCols gridDupNames.ncols,
      resolveNameE gridDupNames 0 c = some "X") ∧
    parse_kallanish_workbook (some gridDupNames) =
      some [("X", [(dateCode 2024 1 1, 20)])] := by
  exact ⟨by decide, by decide, by decide⟩

/-- Membership through ordered insertion. -/
theorem mem_insertByDate {x r : ℚ × ℚ} :
    ∀ l : Series, (x ∈ insertByDate r l ↔ x = r ∨ x ∈ l) := by
  intro l
  induction l with
  | nil => simp [insertByDate]
  | cons s ss ih =>
    rw [insertByDate]
    by_cases hle : r.1 ≤ s.1
    · rw [if_pos hle]
      simp [List.mem_cons]
    · rw [if_neg hle]
      simp only [List.mem_cons, ih]
      tauto

/-- Ordered insertion preserves sortedness by date. -/
theorem pairwise_insertByDate {r : ℚ × ℚ} :
    ∀ {l : Series}, List.Pairwise (fun a b => a.1 ≤ b.1) l →
      List.Pairwise (fun a b => a.1 ≤ b.1) (insertByDate r l) := by
  intro l
  induction l with
  | nil => intro _; simp [insertByDate]
  | cons s ss ih =>
    intro hp
    obtain ⟨hs, hss⟩ := List.pairwise_cons.mp hp
    rw [insertByDate]
    by_cases hle : r.1 ≤ s.1
    · rw [if_pos hle]
      refine List.pairwise_cons.mpr ⟨?_, hp⟩
      intro b hb
      rcases List.mem_cons.mp hb with rfl | hb2
      · exact hle
      · exact le_trans hle (hs b hb2)
    · rw [if_neg hle]
      refine List.pairwise_cons.mpr ⟨?_, ih hss⟩
      intro b hb
      rcases (mem_insertByDate ss).mp hb with rfl | hb2
      · exact le_of_not_le hle
      · exact hs b hb2

/-- The sort is ascending by date. -/
theorem sortByDate_sorted :
    ∀ l : Series, List.Pairwise (fun a b => a.1 ≤ b.1) (sortByDate l) := by
  intro l
  induction l with
  | nil => simp [sortByDate]
  | cons r rs ih =>
    rw [sortByDate]
    exact pairwise_insertByDate ih

/-- The sort is a permutation at the level of membership. -/
theorem mem_sortByDate {x : ℚ × ℚ} :
    ∀ l : Series, (x ∈ sortByDate l ↔ x ∈ l) := by
  intro l
  induction l with
  | nil => simp [sortByDate]
  | cons r rs ih =>
    rw [sortByDate, mem_insertByDate (sortByDate rs), ih]
    simp [List.mem_cons]

/-- A last-occurrence price comes from a row of the list with that date. -/
theorem lastPriceAt_some_mem {d p : ℚ} :
    ∀ l : Series, lastPriceAt l d = some p →
      ∃ r, r ∈ l ∧ r.1 = d ∧ r.2 = p := by
  intro l
  induction l with
  | nil => intro h; simp [lastPriceAt] at h
  | cons r rs ih =>
    intro h
    rw [lastPriceAt] at h
    cases hrs : lastPriceAt rs d with
    | some q =>
      rw [hrs] at h
      obtain rfl := Option.some_inj.mp h
      obtain ⟨x, hx, hxd, hxp⟩ := ih hrs
      exact ⟨x, List.mem_cons_of_mem _ hx, hxd, hxp⟩
    | none =>
      rw [hrs] at h
      by_cases hd : r.1 = d
      · rw [if_pos hd] at h
        obtain rfl := Option.some_inj.mp h
        exact ⟨r, List.mem_cons_self _ _, hd, rfl⟩
      · rw [if_neg hd] at h
        exact absurd h (by simp)

/-- No last-occurrence price means no row carries the date. -/
theorem lastPriceAt_none_iff {d : ℚ} :
    ∀ l : Series, (lastPriceAt l d = none ↔ ∀ r ∈ l, r.1 ≠ d) := by
  intro l
  induction l with
  | nil => simp [lastPriceAt]
  | cons r rs ih =>
    rw [lastPriceAt]
    cases hrs : lastPriceAt rs d with
    | some p =>
      obtain ⟨x, hx, hxd, _⟩ := lastPriceAt_some_mem rs hrs
      constructor
      · intro h; exact absurd h (by simp)
      · intro hall; exact absurd hxd (hall x (List.mem_cons_of_mem _ hx))
    | none =>
      have hrs2 := ih.mp hrs
      by_cases hd : r.1 = d
      · rw [if_pos hd]
        constructor
        · intro h; exact absurd h (by simp)
        · intro hall; exact absurd hd (hall r (List.mem_cons_self _ _))
      · rw [if_neg hd]
        constructor
        · intro _ x hx
          rcases List.mem_cons.mp hx with rfl | h2
          · exact hd
          · exact hrs2 x h2
        · intro _; rfl

/-- Cons-step equation of `lastPriceAt`, stated without a dependent
match. -/
theorem lastPriceAt_cons (r : ℚ × ℚ) (rs : Series) (d : ℚ) :
    lastPriceAt (r :: rs) d =
      match lastPriceAt rs d with
      | some q => some q
      | none => if r.1 = d then some r.2 else none := rfl

/-- Keep-last deduplication keeps exactly the last row of each date. -/
theorem mem_dropDupKeepLast {d p : ℚ} :
    ∀ l : Series, ((d, p) ∈ dropDupKeepLast l ↔ lastPriceAt l d = some p) := by
  intro l
  induction l with
  | nil => simp [dropDupKeepLast, lastPriceAt]
  | cons r rs ih =>
    rw [dropDupKeepLast, lastPriceAt_cons]
    by_cases hdup : rs.any (fun s => decide (s.1 = r.1)) = true
    · rw [if_pos hdup]
      cases hrs : lastPriceAt rs d with
      | some q =>
        simp only []
        rw [ih, hrs]
      | none =>
        simp only []
        by_cases hd : r.1 = d
        · exfalso
          obtain ⟨s, hs, hsd⟩ := List.any_eq_true.mp hdup
          have hsd2 : s.1 = r.1 := of_decide_eq_true hsd
          exact (lastPriceAt_none_iff rs).mp hrs s hs (by rw [hsd2, hd])
        · rw [if_neg hd, ih, hrs]
    · rw [if_neg hdup]
      have hfr : ∀ s ∈ rs, s.1 ≠ r.1 := by
        intro s hs hcon
        exact hdup (List.any_eq_true.mpr ⟨s, hs, decide_eq_true hcon⟩)
      cases hrs : lastPriceAt rs d with
      | some q =>
        obtain ⟨x, hx, hxd, _⟩ := lastPriceAt_some_mem rs hrs
        simp only [List.mem_cons]
        constructor
        · intro h
          rcases h with h1 | h1
          · exfalso
            have hrd : d = r.1 := congrArg Prod.fst h1
            exact hfr x hx (by rw [hxd, hrd])
          · rw [← hrs]
            exact ih.mp h1
        · intro h
          refine Or.inr (ih.mpr ?_)
          rw [hrs]
          exact h
      | none =>
        simp only [List.mem_cons]
        by_cases hd : r.1 = d
        · rw [if_pos hd]
          constructor
          · intro h
            rcases h with h1 | h1
            · have h2 : p = r.2 := congrArg Prod.snd h1
              rw [h2]
            · have := ih.mp h1
              rw [hrs] at this
              exact absurd this (by simp)
          · intro h
            obtain h2 := Option.some_inj.mp h
            exact Or.inl (Prod.ext_iff.mpr ⟨hd.symm, h2.symm⟩)
        · rw [if_neg hd]
          constructor
          · intro h
            rcases h with h1 | h1
            · exact absurd (congrArg Prod.fst h1).symm hd
            · have := ih.mp h1
              rw [hrs] at this
              exact this
          · intro h
            exact absurd h (by simp)

/-- Reading back the key just written into the dict yields its value. -/
theorem dictGet_insert (d : SeriesMap) (k : String) (v : Series) :
    dictGet (dictInsert d k v) k = v := by
  induction d with
  | nil => simp [dictInsert, dictGet]
  | cons q rest ih =>
    by_cases hq : q.1 = k
    · rw [dictInsert, if_pos hq]
      simp [dictGet]
    · rw [dictInsert, if_neg hq, dictGet, if_neg hq]
      exact ih

/-- C5: merging a later series `b` into an existing entry `a` of the same
product name — with the merge step shared by `load_local_price_series`,
`load_uploaded_series` and the merge in `main` — concatenates the rows,
removes duplicate dates keeping the later-merged value, and sorts
ascending by date; the concrete example of the claim comes out both
through the whole `load_local_price_series` pipeline and through the
`main` merge. -/
theorem C5_merge_keep_last_sorted (acc : SeriesMap) (nm : String)
    (a b : Series) (hk : containsKey acc nm = true)
    (ha : dictGet acc nm = a) :
    dictGet (mergeStep acc nm b) nm = sortByDate (dropDupKeepLast (a ++ b)) ∧
    List.Pairwise (fun r s => r.1 ≤ s.1) (dictGet (mergeStep acc nm b) nm) ∧
    (∀ d p, ((d, p) ∈ dictGet (mergeStep acc nm b) nm ↔
      lastPriceAt (a ++ b) d = some p)) ∧
    load_local_price_series [some gridMergeA, some gridMergeB] =
      some [("A", seriesMerged)] ∧
    mergeAllSeries [("A", seriesA)] [("A", seriesB)] = [("A", seriesMerged)] := by
  have hget : dictGet (mergeStep acc nm b) nm =
      sortByDate (dropDupKeepLast (a ++ b)) := by
    rw [mergeStep, if_pos hk, ha, dictGet_insert]
  refine ⟨hget, ?_, ?_, by decide, by decide⟩
  · rw [hget]
    exact sortByDate_sorted _
  · intro d p
    rw [hget, mem_sortByDate, mem_dropDupKeepLast]

/-- C5 witness: the merge equation applied at the claim's concrete
series "A". -/
theorem C5_witness :
    dictGet (mergeStep [("A", seriesA)] "A" seriesB) "A" =
      sortByDate (dropDupKeepLast (seriesA ++ seriesB)) :=
  (C5_merge_keep_last_sorted [("A", seriesA)] "A" seriesA seriesB (by decide)
    (by decide)).1

/-- The scan loop entered at row `n` is the first non-NaN cell among rows
`n-1`, …, `0`, or the Python empty string. -/
theorem scanLoop_eq_find (g : Grid) (c : Nat) :
    ∀ n, scanLoop g c n =
      match ((List.range n).reverse).find? (fun t => !(isna (cellAt g t c))) with
      | some t => NameVal.cell (cellAt g t c)
      | none => NameVal.pystr "" := by
  intro n
  induction n with
  | zero => rfl
  | succ t ih =>
    rw [scanLoop, List.range_succ, List.reverse_append]
    simp only [List.reverse_cons, List.reverse_nil, List.nil_append,
      List.singleton_append]
    by_cases hb : isna (cellAt g t c) = true
    · rw [if_pos hb, List.find?_cons_of_neg _ (by simp [hb]), ih]
    · rw [if_neg hb, List.find?_cons_of_pos _ (by simp [hb])]

/-- Folding a step that is the identity at one element is folding over
the list with that element filtered out. -/
theorem foldl_step_id_filter {α : Type} (step : α → Nat → α) (c : Nat)
    (hid : ∀ a, step a c = a) :
    ∀ (l : List Nat) (acc : α),
      l.foldl step acc = (l.filter (fun x => decide (x ≠ c))).foldl step acc := by
  intro l
  induction l with
  | nil => intro acc; rfl
  | cons x xs ih =>
    intro acc
    rw [List.foldl_cons]
    by_cases hx : x = c
    · rw [hx, hid acc, ih acc]
      congr 1
      simp [List.filter_cons]
    · rw [ih (step acc x)]
      have hf : (x :: xs).filter (fun y => decide (y ≠ c)) =
          x :: xs.filter (fun y => decide (y ≠ c)) := by
        simp [List.filter_cons, hx]
      rw [hf, List.foldl_cons]

/-- C7: for a group whose name cell just above the "Dates" marker (at a
marker row R ≥ 1) is blank, the name is resolved by scanning upward in
the same column to the first non-blank cell; when the whole column above
the marker is blank the resolved name is empty, the group is skipped so
that the parse equals the parse over the remaining groups only, and no
error is raised. -/
theorem C7_blank_name_scans_upward (g : Grid) (R c : Nat)
    (hR : findDatesRow g = some R) (h1 : 1 ≤ R)
    (_hc : c ∈ groupCols g.ncols)
    (hblank : isna (cellAt g (R - 1) c) = true) :
    resolveNameE g ((R : Int) - 1) c = some (scanSpec g c (R - 1)) ∧
    ((∀ t, t < R → isna (cellAt g t c) = true) →
      resolveNameE g ((R : Int) - 1) c = some "" ∧
      parseFrom g R = parseGroups g ((R : Int) - 1) (R + 1)
        ((groupCols g.ncols).filter (fun x => decide (x ≠ c))) ∧
      ∃ d, parse_kallanish_workbook (some g) = some d) := by
  have hlt : R < nrows g := findDatesRow_lt hR
  have ht : ((R : Int) - 1).toNat = R - 1 := by omega
  have hv : iatI g ((R : Int) - 1) c = some (cellAt g (R - 1) c) := by
    rw [iatI, if_pos (by omega), if_pos (by omega), ht]
  have hscan : resolveNameE g ((R : Int) - 1) c = some (scanSpec g c (R - 1)) := by
    simp only [resolveNameE, hv, hblank, if_true]
    rw [if_neg (by omega : ¬ ((R : Int) - 1 < 0)), ht, scanLoop_eq_find]
    cases hf : ((List.range (R - 1)).reverse).find?
        (fun t => !(isna (cellAt g t c))) with
    | some t => simp [scanSpec, hf, strOfNameVal]
    | none => simp [scanSpec, hf, strOfNameVal, pyStrip]
  refine ⟨hscan, fun hall => ?_⟩
  have hspec : scanSpec g c (R - 1) = "" := by
    have hnone : ((List.range (R - 1)).reverse).find?
        (fun t => !(isna (cellAt g t c))) = none := by
      rw [List.find?_eq_none]
      intro t htm
      rw [List.mem_reverse, List.mem_range] at htm
      simp [hall t (by omega)]
    simp [scanSpec, hnone]
  have hres0 : resolveNameE g ((R : Int) - 1) c = some "" := by
    rw [hscan, hspec]
  have hid : ∀ a, groupStep g ((R : Int) - 1) (R + 1) a c = a := by
    intro a
    cases a with
    | none => rfl
    | some d0 => simp [groupStep, hres0]
  refine ⟨hres0, ?_, ?_⟩
  · rw [parseFrom, parseGroups, parseGroups]
    exact foldl_step_id_filter _ c hid (groupCols g.ncols) (some [])
  · have hval : validRowIdx g ((R : Int) - 1) := by
      left
      constructor <;> [omega; (push_cast; omega)]
    obtain ⟨dfin, hdfin⟩ := foldl_groupStep_some (R + 1) hval (groupCols g.ncols) []
    refine ⟨dfin, ?_⟩
    simp only [parse_kallanish_workbook, hR, Option.getD_some, parseFrom,
      parseGroups]
    exact hdfin

/-- C7 witness: at a concrete sheet, the second group's column is blank
up to the top: its name resolves empty and the parse succeeds without it. -/
theorem C7_witness :
    resolveNameE gridScan ((2 : Int) - 1) 4 = some "" ∧
    ∃ d, parse_kallanish_workbook (some gridScan) = some d := by
  obtain ⟨h1, h2⟩ := C7_blank_name_scans_upward gridScan 2 4 (by decide)
    (by decide) (by decide) (by decide)
  obtain ⟨ha, hb, hc⟩ := h2 (by decide)
  exact ⟨ha, hc⟩

/-- C9: when the "Dates" marker sits at row 0, the product-name row index
is −1, which `df.iat` resolves to the last row of the sheet: the name is
read from there (a blank last-row cell even stringifies to "nan"), no
group lookup fails, and the whole parse raises no exception. -/
theorem C9_marker_at_row0_reads_last_row (g : Grid) (c : Nat)
    (h0 : findDatesRow g = some 0) (_hc : c ∈ groupCols g.ncols) :
    resolveNameE g ((0 : Int) - 1) c =
      some (pyStrip (cellStr (cellAt g (nrows g - 1) c))) ∧
    ∃ d, parse_kallanish_workbook (some g) = some d := by
  have hn : 0 < nrows g := by
    have := findDatesRow_lt h0
    omega
  have ht : ((nrows g : Int) + ((0 : Int) - 1)).toNat = nrows g - 1 := by omega
  have hv : iatI g ((0 : Int) - 1) c = some (cellAt g (nrows g - 1) c) := by
    rw [iatI, if_neg (by omega), if_pos (by push_cast; omega), ht]
  constructor
  · simp only [resolveNameE, hv]
    by_cases hb : isna (cellAt g (nrows g - 1) c) = true
    · simp [hb, strOfNameVal, show ((0 : Int) - 1 < 0) by omega]
    · simp [hb, strOfNameVal]
  · have hval : validRowIdx g ((0 : Int) - 1) := by
      right
      constructor <;> [omega; (push_cast; omega)]
    obtain ⟨dfin, hdfin⟩ := foldl_groupStep_some (0 + 1) hval (groupCols g.ncols) []
    refine ⟨dfin, ?_⟩
    simp only [parse_kallanish_workbook, h0, Option.getD_some, parseFrom,
      parseGroups]
    exact hdfin

/-- C9 witness: the last-row name lookup at a concrete sheet whose marker
is at row 0. -/
theorem C9_witness :
    resolveNameE gridMarkerTop ((0 : Int) - 1) 1 =
      some (pyStrip (cellStr (cellAt gridMarkerTop (nrows gridMarkerTop - 1) 1))) ∧
    ∃ d, parse_kallanish_workbook (some gridMarkerTop) = some d :=
  C9_marker_at_row0_reads_last_row gridMarkerTop 1 (by decide) (by decide)

/-- C10: an uploaded file on which the main parse yields an empty mapping
goes through the fallback: with the sheet readable, a "Dates" row present
and at least 2 columns, exactly one series is emitted, named after the
file's base name, built from columns 0 and 1 below the marker with the
same row-dropping rules; with a marker but fewer than 2 columns the
positional indexer raises (the exception is caught) and the file
contributes nothing; and whenever the fallback fails the file contributes
nothing — in every case no exception escapes. -/
theorem C10_upload_empty_parse_falls_back (f : UploadedFile)
    (hparsed : (parse_kallanish_workbook f.wb).getD [] = []) :
    (∀ g idx, f.wb = some g → findDatesRow g = some idx → 2 ≤ g.ncols →
      uploadedFileSeries f = [(splitextBase f.name, extractSeries g (idx + 1) 1)]) ∧
    (∀ g idx, f.wb = some g → findDatesRow g = some idx → g.ncols < 2 →
      uploadedFileSeries f = []) ∧
    (fallbackSeries f.wb = none → uploadedFileSeries f = []) := by
  refine ⟨?_, ?_, ?_⟩
  · intro g idx hg hidx hcols
    rw [hg] at hparsed
    simp only [uploadedFileSeries, hg, hparsed, List.isEmpty_nil, if_true,
      fallbackSeries, hidx]
    rw [if_neg (by omega)]
  · intro g idx hg hidx hcols
    rw [hg] at hparsed
    simp only [uploadedFileSeries, hg, hparsed, List.isEmpty_nil, if_true,
      fallbackSeries, hidx]
    rw [if_pos (by omega)]
  · intro hfb
    simp only [uploadedFileSeries, hparsed, List.isEmpty_nil, if_true, hfb]

/-- C10 witness: the fallback emits the single base-named series at a
concrete uploaded file whose sheet has a marker but no complete triple,
and a 1-column sheet with a marker contributes nothing. -/
theorem C10_witness :
    uploadedFileSeries uploadNarrow =
      [("prices", [(dateCode 2024 1 1, 42)])] ∧
    uploadedFileSeries uploadOneCol = [] := by
  constructor
  · have h := (C10_upload_empty_parse_falls_back uploadNarrow (by decide)).1
    have h2 := h ⟨[[Cell.str "Dates", Cell.str "Price"],
        [Cell.date 2024 1 1, Cell.num 42]], 2⟩ 0 rfl (by decide) (by decide)
    rw [h2]
    decide
  · exact (C10_upload_empty_parse_falls_back uploadOneCol (by decide)).2.1
      ⟨[[Cell.str "Dates"], [Cell.date 2024 1 1]], 1⟩ 0 rfl (by decide) (by decide)

end SteelDashboard
